import Mathlib

/-!
# Verification of `abf_batch_plot.py`

Shallow embedding of the PANX1 electrophysiology ABF batch-plotting script
(`src/abf_batch_plot.py`) and proofs about it.

Real-valued samples are embedded as `ℚ`; machine floats in this program are
used only for elementary arithmetic (`0.5 * fs`, comparisons, divisions by a
nonzero Nyquist value), for which `ℚ` is a faithful model of the program's
intent.  Python exceptions are embedded as `Except`; the batch driver's
console effects are embedded as a value of type `BatchResult` recording the
per-file events, the missing-file list, the warning block and the exit code.
-/

namespace AbfBatchPlot

/-! ## Decimal formatting: the embedding of Python's `f"{number:04d}"` -/

/-- The decimal digit character for `d` (meaningful for `d < 10`). -/
def digitChar (d : Nat) : Char := Char.ofNat (48 + d)

/-- Fuel-driven helper for `natDigits`; with `n ≤ fuel` the fuel never runs
out, so `natDigitsAux fuel n` is the digit expansion of `n`. -/
def natDigitsAux : Nat → Nat → List Char
  | _, 0 => []
  | 0, _ + 1 => []
  | fuel + 1, n + 1 => natDigitsAux fuel ((n + 1) / 10) ++ [digitChar ((n + 1) % 10)]

/-- Most-significant-first decimal digits of a natural number; `[]` for `0`.
This is the digit expansion underlying Python's integer formatting. -/
def natDigits (n : Nat) : List Char := natDigitsAux n n

/-- Decimal representation of a natural number, as Python's `str` renders a
nonnegative integer: `"0"` for zero, otherwise the digits with no leading
zero. -/
def natRepr (n : Nat) : List Char := if n = 0 then ['0'] else natDigits n

/-- Left-pad a digit string with `'0'` up to width `w` — the `0`-fill of
Python's format specification `0wd`. -/
def zpad (w : Nat) (s : List Char) : List Char :=
  List.replicate (w - s.length) '0' ++ s

/-- The embedding of Python's `f"{n:04d}"` on an integer `n`: zero-fill to
width 4, where a minus sign is emitted first and counts toward the width. -/
def format04d (n : Int) : List Char :=
  if n < 0 then '-' :: zpad 3 (natRepr n.natAbs) else zpad 4 (natRepr n.toNat)

/-- `build_filename` from `abf_batch_plot.py`:
`return f"{prefix_date}_{number:04d}.abf"`. -/
def build_filename (prefix_date : String) (number : Int) : String :=
  prefix_date ++ "_" ++ String.mk (format04d number) ++ ".abf"

/-- Numeric value of a most-significant-first digit string (the inverse
direction of decimal formatting, used to state that padding preserves the
index). -/
def digitsVal (s : List Char) : Nat :=
  s.foldl (fun acc c => 10 * acc + (c.toNat - 48)) 0

/-! ## The signal filter: `low_pass_filter`

The script delegates filter design to `scipy.signal.butter` and filter
application to `scipy.signal.filtfilt`, both outside this repository.
They are embedded below from the spec's description of the delegated
operation (rational transfer-function coefficients from the normalized
cutoff; zero-phase forward-backward application preserving length), over `ℚ`.
-/

/-- Modelled from the spec: one step of the linear difference equation
(direct form II transposed) that `scipy.signal.lfilter` applies inside
`filtfilt`, with coefficients normalized so that `a₀ = 1` (as the filter
design returns them): output `y = b₀·x + z₀`, and state update
`zᵢ = b_,i+1,·x + z_,i+1, - a_,i+1,·y`. -/
def iirStep (b a : List ℚ) (z : List ℚ) (x : ℚ) : ℚ × List ℚ :=
  let y := b.headD 0 * x + z.headD 0
  (y, (List.range z.length).map fun i =>
    b.getD (i + 1) 0 * x + z.getD (i + 1) 0 - a.getD (i + 1) 0 * y)

/-- Modelled from the spec: the one-directional pass of the filter over the
samples, threading the delay state; one output sample per input sample. -/
def lfilterGo (b a : List ℚ) : List ℚ → List ℚ → List ℚ
  | _, [] => []
  | z, x :: xs => (iirStep b a z x).1 :: lfilterGo b a (iirStep b a z x).2 xs

/-- Modelled from the spec: `scipy.signal.lfilter b a x` with zero initial
state of the usual order `max |b| |a| - 1`. -/
def lfilter (b a x : List ℚ) : List ℚ :=
  lfilterGo b a (List.replicate (max b.length a.length - 1) 0) x

/-- Modelled from the spec: `scipy.signal.filtfilt b a x`, the zero-phase
application — filter forward, reverse, filter again, reverse back ("apply
once forward, once backward"); the library's edge-padding refinement is not
modelled. -/
def filtfilt (b a x : List ℚ) : List ℚ :=
  (lfilter b a (lfilter b a x).reverse).reverse

/-- Modelled from the spec: `scipy.signal.butter order wn btype="low"
analog=False` returns `order + 1` numerator and denominator
transfer-function coefficients computed from the normalized cutoff `wn`
with `a₀ = 1`.  The numeric coefficient values are library internals
outside this repository; the embedding records only their arity, the
normalization `a₀ = 1`, and their dependence on `wn`, which is all the
claims consume. -/
def butter (order : Nat) (wn : ℚ) : List ℚ × List ℚ :=
  (List.replicate (order + 1) wn, 1 :: List.replicate order wn)

/-- The `ValueError` raised by `low_pass_filter`: the exception value of
`raise ValueError(f"Cutoff ({cutoff_hz} Hz) must be less than Nyquist
({nyquist:.1f} Hz).")`, embedded as the pair of quantities interpolated
into the message. -/
structure ConfigError where
  cutoff_hz : ℚ
  nyquist : ℚ
deriving DecidableEq, Repr

/-- The message of the `ValueError`, rendered from the two stored
quantities (the `:.1f` float formatting of Python is rendered here as the
exact rational). -/
def ConfigError.message (e : ConfigError) : String :=
  "Cutoff (" ++ toString e.cutoff_hz ++ " Hz) must be less than Nyquist (" ++
    toString e.nyquist ++ " Hz)."

/-- `low_pass_filter` from `abf_batch_plot.py`:
```
nyquist = 0.5 * fs_hz
if cutoff_hz >= nyquist:
    raise ValueError(...)
b, a = butter(order, cutoff_hz / nyquist, btype="low", analog=False)
return filtfilt(b, a, data)
```
The Python default `order=4` is the explicit argument `4` here. -/
def low_pass_filter (data : List ℚ) (cutoff_hz fs_hz : ℚ) (order : Nat) :
    Except ConfigError (List ℚ) :=
  let nyquist := (1 / 2 : ℚ) * fs_hz
  if cutoff_hz ≥ nyquist then
    .error ⟨cutoff_hz, nyquist⟩
  else
    let ba := butter order (cutoff_hz / nyquist)
    .ok (filtfilt ba.1 ba.2 data)

/-- Boolean test for the raising branch of `low_pass_filter`. -/
def isConfigError (r : Except ConfigError (List ℚ)) : Bool :=
  match r with
  | .error _ => true
  | .ok _ => false

/-! ## Output paths and filesystem effects of `plot_one_abf`

`plot_one_abf` loads one recording, filters each sweep, renders the figure
and saves it twice.  The claims about it concern its filesystem effects:
the two derived output names, the `outdir.mkdir(parents=True,
exist_ok=True)` call, and `fig.savefig` overwriting.  The filesystem is
embedded as a map from path to content version (`none` = absent) plus a
directory-existence predicate. -/

/-- Characters of the final path component: everything after the last
`'/'` (the whole string when there is none) — `pathlib`'s `name`. -/
def afterLastSlash (l : List Char) : List Char :=
  (l.reverse.takeWhile (fun c => c != '/')).reverse

/-- `pathlib`'s stem rule on the characters of a path's final component:
with `i` the position of the last dot, the stem is `name[:i]` when
`0 < i < len - 1`, otherwise the whole name.  Stated here with `j` the
distance of the last dot from the end (`i = len - 1 - j`). -/
def stemChars (name : List Char) : List Char :=
  match name.reverse.indexOf? '.' with
  | none => name
  | some j =>
    if 0 < j ∧ j < name.length - 1 then name.take (name.length - 1 - j) else name

/-- `Path(p).stem`: the final component of `p` without its last suffix. -/
def stem (p : String) : String := String.mk (stemChars (afterLastSlash p.data))

/-- The resolved path `base_dir / fname`, rendered as `str` does. -/
def filePath (baseDir fname : String) : String := baseDir ++ "/" ++ fname

/-- The output paths written by `plot_one_abf`:
`for ext in ["png", "pdf"]: out_file = outdir / f"{stem}.filtered.{ext}"`. -/
def outputFiles (abf_path outdir : String) : List String :=
  ["png", "pdf"].map fun ext => outdir ++ "/" ++ stem abf_path ++ ".filtered." ++ ext

/-- A flat file store: each path maps to the version of its content,
`none` when the file is absent. -/
def FileStore : Type := String → Option Nat

/-- `fig.savefig(out_file)`: (over)write one path unconditionally. -/
def writeFile (store : FileStore) (p : String) (v : Nat) : FileStore :=
  fun q => if q = p then some v else store q

/-- The save loop at the end of `plot_one_abf`: write the figure (content
version `v`) to each of the two output paths in order. -/
def plotOneSave (store : FileStore) (abf_path outdir : String) (v : Nat) : FileStore :=
  (outputFiles abf_path outdir).foldl (fun s p => writeFile s p v) store

/-- The path components of `d` (split on `'/'`). -/
def pathComponents (d : String) : List (List Char) := d.data.splitOn '/'

/-- Every ancestor of `d`, `d` itself included: the joined nonempty
component-prefixes of `d`. -/
def ancestors (d : String) : List String :=
  (List.range (pathComponents d).length).map fun i =>
    String.mk (List.intercalate ['/'] ((pathComponents d).take (i + 1)))

/-- `outdir.mkdir(parents=True, exist_ok=True)`: afterwards a directory
exists iff it existed before or is `d` or an ancestor of `d`; never an
error. -/
def mkdirParents (dirs : String → Bool) (d : String) : String → Bool :=
  fun q => dirs q || (ancestors d).contains q

/-! ## The batch driver: `main`

The loop in `main` over `range(args.start, args.end + 1)` is embedded as a
recursion over the list of indices; the environment (which files exist on
disk, and the outcome of `plot_one_abf` on each) enters as two function
parameters, so every theorem about the driver quantifies over all disk
contents and all per-file outcomes. -/

/-- One console line of the per-file loop: `print(f"[OK] Processed
{fpath}")` or `print(f"[ERROR] {fpath}: {e}", file=sys.stderr)`. -/
inductive Event where
  | okLine (path : String)
  | errorLine (path : String) (msg : String)
deriving DecidableEq, Repr

/-- The two console streams. -/
inductive Chan where
  | stdout
  | stderr
deriving DecidableEq, Repr

/-- Which stream an event is printed to: `[OK]` to stdout, `[ERROR]` to
stderr. -/
def eventChan : Event → Chan
  | .okLine _ => .stdout
  | .errorLine _ _ => .stderr

/-- The rendered console line of an event. -/
def renderEvent : Event → String
  | .okLine p => "[OK] Processed " ++ p
  | .errorLine p e => "[ERROR] " ++ p ++ ": " ++ e

/-- The path of the file an event reports on. -/
def eventPath : Event → String
  | .okLine p => p
  | .errorLine p _ => p

/-- The event the loop records for a present file, as a function of the
outcome of `plot_one_abf` on it. -/
def eventOf (process : String → Except String Unit) (p : String) : Event :=
  match process p with
  | .ok _ => .okLine p
  | .error e => .errorLine p e

/-- Python's `range(start, stop)` over integers, as the ascending list
`[start, start+1, ...]` of length `max 0 (stop - start)`; the batch loop
uses `range(args.start, args.end + 1)`. -/
def intRange (start stop : Int) : List Int :=
  (List.range (stop - start).toNat).map fun (i : Nat) => start + (i : Int)

/-- The body of the batch loop, one iteration per index: resolve the
path, record it as missing when absent (`continue`), otherwise run
`plot_one_abf` under `try`/`except Exception` and record one event.
`fileExists` embeds `fpath.exists()` and `process` the outcome of
`plot_one_abf` on each path (`Except.error` = the exception raised). -/
def mainLoop (fileExists : String → Bool) (process : String → Except String Unit)
    (baseDir prefix_date : String) : List Int → List Event × List String
  | [] => ([], [])
  | n :: ns =>
    let fpath := filePath baseDir (build_filename prefix_date n)
    let rest := mainLoop fileExists process baseDir prefix_date ns
    if fileExists fpath then
      match process fpath with
      | .ok _ => (.okLine fpath :: rest.1, rest.2)
      | .error e => (.errorLine fpath e :: rest.1, rest.2)
    else
      (rest.1, fpath :: rest.2)

/-- Everything observable about one run of `main`. -/
structure BatchResult where
  events : List Event
  missing : List String
  warningLines : List String
  consoleOutput : List String
  exitCode : Nat
deriving DecidableEq, Repr

/-- `main` from `abf_batch_plot.py`, after argument parsing: loop over
`range(start, end + 1)`, then print the warning block when any file was
missing.  The script never calls `sys.exit` and the loop contains every
raise-capable per-file statement in a `try`/`except Exception`, so the
process always finishes the loop and exits with status 0. -/
def main (fileExists : String → Bool) (process : String → Except String Unit)
    (baseDir prefix_date : String) (start endIdx : Int) : BatchResult :=
  let r := mainLoop fileExists process baseDir prefix_date (intRange start (endIdx + 1))
  let warnings :=
    if r.2.isEmpty then [] else
      "[WARNING] Missing files:" :: r.2.map (fun m => " - " ++ m)
  { events := r.1
    missing := r.2
    warningLines := warnings
    consoleOutput := r.1.map renderEvent ++ warnings
    exitCode := 0 }

/-! ### Lemmas about the decimal formatting -/

lemma natDigitsAux_congr : ∀ f₁ f₂ n, n ≤ f₁ → n ≤ f₂ →
    natDigitsAux f₁ n = natDigitsAux f₂ n := by
  intro f₁
  induction f₁ with
  | zero =>
    intro f₂ n h1 _
    obtain rfl : n = 0 := Nat.le_zero.mp h1
    cases f₂ <;> rfl
  | succ f ih =>
    intro f₂ n h1 h2
    match n, f₂ with
    | 0, f₂ => cases f₂ <;> rfl
    | n + 1, 0 => omega
    | n + 1, g + 1 =>
      simp only [natDigitsAux]
      have hdiv : (n + 1) / 10 ≤ n := by
        have := Nat.div_lt_self (Nat.succ_pos n) (by norm_num : 1 < 10)
        omega
      rw [ih g ((n + 1) / 10) (by omega) (by omega)]

lemma natDigits_succ (n : Nat) :
    natDigits (n + 1) = natDigits ((n + 1) / 10) ++ [digitChar ((n + 1) % 10)] := by
  have hdiv : (n + 1) / 10 ≤ n := by
    have := Nat.div_lt_self (Nat.succ_pos n) (by norm_num : 1 < 10)
    omega
  show natDigitsAux (n + 1) (n + 1) = _
  simp only [natDigitsAux]
  rw [natDigitsAux_congr n ((n + 1) / 10) ((n + 1) / 10) hdiv le_rfl]
  rfl

lemma natDigits_eq (n : Nat) (h : n ≠ 0) :
    natDigits n = natDigits (n / 10) ++ [digitChar (n % 10)] := by
  obtain ⟨m, rfl⟩ := Nat.exists_eq_succ_of_ne_zero h
  exact natDigits_succ m

lemma natDigits_length_le : ∀ k n, n < 10 ^ k → (natDigits n).length ≤ k := by
  intro k
  induction k with
  | zero =>
    intro n hn
    obtain rfl : n = 0 := by omega
    simp [natDigits, natDigitsAux]
  | succ k ih =>
    intro n hn
    match n with
    | 0 => simp [natDigits, natDigitsAux]
    | n + 1 =>
      rw [natDigits_succ]
      have hdiv : (n + 1) / 10 < 10 ^ k := by
        rw [Nat.div_lt_iff_lt_mul (by norm_num : 0 < 10)]
        calc n + 1 < 10 ^ (k + 1) := hn
          _ = 10 ^ k * 10 := by ring
      have := ih ((n + 1) / 10) hdiv
      simp only [List.length_append, List.length_cons, List.length_nil]
      omega

lemma lt_length_natDigits : ∀ k n, 10 ^ k ≤ n → k < (natDigits n).length := by
  intro k
  induction k with
  | zero =>
    intro n hn
    match n with
    | n + 1 => rw [natDigits_succ]; simp
  | succ k ih =>
    intro n hn
    have hpos : n ≠ 0 := by
      have : (0 : Nat) < 10 ^ (k + 1) := Nat.pos_pow_of_pos _ (by norm_num)
      omega
    rw [natDigits_eq n hpos]
    have hdiv : 10 ^ k ≤ n / 10 := by
      rw [Nat.le_div_iff_mul_le (by norm_num : 0 < 10)]
      calc 10 ^ k * 10 = 10 ^ (k + 1) := by ring
        _ ≤ n := hn
    have := ih (n / 10) hdiv
    simp only [List.length_append, List.length_cons, List.length_nil]
    omega

lemma digitChar_toNat (d : Nat) (hd : d < 10) : (digitChar d).toNat = 48 + d := by
  interval_cases d <;> decide

lemma digitChar_isDigit (d : Nat) (hd : d < 10) : (digitChar d).isDigit = true := by
  interval_cases d <;> decide

lemma digitsVal_append_singleton (l : List Char) (c : Char) :
    digitsVal (l ++ [c]) = 10 * digitsVal l + (c.toNat - 48) := by
  simp [digitsVal, List.foldl_append]

lemma digitsVal_natDigits (n : Nat) : digitsVal (natDigits n) = n := by
  induction n using Nat.strong_induction_on with
  | _ n ih =>
    match n with
    | 0 => rfl
    | n + 1 =>
      rw [natDigits_succ, digitsVal_append_singleton,
        ih ((n + 1) / 10) (Nat.div_lt_self (Nat.succ_pos n) (by norm_num)),
        digitChar_toNat ((n + 1) % 10) (Nat.mod_lt _ (by norm_num))]
      omega

lemma natDigits_all_digit (n : Nat) : ∀ c ∈ natDigits n, c.isDigit = true := by
  induction n using Nat.strong_induction_on with
  | _ n ih =>
    match n with
    | 0 => intro c hc; simp [natDigits, natDigitsAux] at hc
    | n + 1 =>
      rw [natDigits_succ]
      intro c hc
      rcases List.mem_append.mp hc with h | h
      · exact ih ((n + 1) / 10) (Nat.div_lt_self (Nat.succ_pos n) (by norm_num)) c h
      · rcases List.mem_singleton.mp h with rfl
        exact digitChar_isDigit _ (Nat.mod_lt _ (by norm_num))

lemma natRepr_length_le (k n : Nat) (hk : 1 ≤ k) (hn : n < 10 ^ k) :
    (natRepr n).length ≤ k := by
  unfold natRepr
  split
  · simpa using hk
  · exact natDigits_length_le k n hn

lemma lt_length_natRepr (k n : Nat) (hn : 10 ^ k ≤ n ∧ 1 ≤ n) :
    k < (natRepr n).length := by
  unfold natRepr
  split
  · omega
  · exact lt_length_natDigits k n hn.1

lemma digitsVal_natRepr (n : Nat) : digitsVal (natRepr n) = n := by
  unfold natRepr
  split
  · simp [digitsVal]; omega
  · exact digitsVal_natDigits n

lemma natRepr_all_digit (n : Nat) : ∀ c ∈ natRepr n, c.isDigit = true := by
  unfold natRepr
  split
  · intro c hc; rcases List.mem_singleton.mp hc with rfl; decide
  · exact natDigits_all_digit n

lemma length_zpad (w : Nat) (s : List Char) (h : s.length ≤ w) :
    (zpad w s).length = w := by
  simp [zpad]; omega

lemma zpad_of_le (w : Nat) (s : List Char) (h : w ≤ s.length) :
    zpad w s = s := by
  simp [zpad, Nat.sub_eq_zero_of_le h]

lemma digitsVal_zpad (w : Nat) (s : List Char) :
    digitsVal (zpad w s) = digitsVal s := by
  unfold zpad digitsVal
  rw [List.foldl_append]
  congr 1
  induction (w - s.length) with
  | zero => rfl
  | succ k ih => simpa [List.replicate_succ]

lemma zpad_all_digit (w : Nat) (s : List Char) (hs : ∀ c ∈ s, c.isDigit = true) :
    ∀ c ∈ zpad w s, c.isDigit = true := by
  intro c hc
  rcases List.mem_append.mp hc with h | h
  · rcases List.eq_of_mem_replicate h with rfl; decide
  · exact hs c h

/-! ### Length lemmas for the filter chain -/

lemma lfilterGo_length (b a : List ℚ) :
    ∀ (xs z : List ℚ), (lfilterGo b a z xs).length = xs.length := by
  intro xs
  induction xs with
  | nil => intro z; rfl
  | cons x xs ih => intro z; simp [lfilterGo, ih]

lemma lfilter_length (b a x : List ℚ) : (lfilter b a x).length = x.length :=
  lfilterGo_length b a x _

lemma filtfilt_length (b a x : List ℚ) : (filtfilt b a x).length = x.length := by
  simp [filtfilt, lfilter_length]

/-! ### Lemmas about the batch driver -/

lemma eventPath_eventOf (proc : String → Except String Unit) (p : String) :
    eventPath (eventOf proc p) = p := by
  unfold eventOf
  cases proc p <;> rfl

lemma eventPath_comp_eventOf (proc : String → Except String Unit) :
    eventPath ∘ eventOf proc = id :=
  funext fun p => eventPath_eventOf proc p

lemma mainLoop_eq (fe : String → Bool) (proc : String → Except String Unit)
    (bd pd : String) : ∀ ns : List Int,
    mainLoop fe proc bd pd ns =
      (((ns.map fun n => filePath bd (build_filename pd n)).filter fe).map (eventOf proc),
        (ns.map fun n => filePath bd (build_filename pd n)).filter fun p => ! fe p) := by
  intro ns
  induction ns with
  | nil => rfl
  | cons n ns ih =>
    simp only [mainLoop, ih, List.map_cons, List.filter_cons]
    by_cases h : fe (filePath bd (build_filename pd n))
    · cases hp : proc (filePath bd (build_filename pd n)) <;>
        simp [h, hp, eventOf]
    · simp [h]

lemma mem_intRange (s t m : Int) : m ∈ intRange s t ↔ s ≤ m ∧ m < t := by
  simp only [intRange, List.mem_map, List.mem_range]
  constructor
  · rintro ⟨i, hi, rfl⟩
    omega
  · intro h
    exact ⟨(m - s).toNat, by omega, by omega⟩

lemma intRange_pairwise (s t : Int) : (intRange s t).Pairwise (· < ·) := by
  unfold intRange
  refine List.Pairwise.map _ ?_ (List.pairwise_lt_range _)
  intro a b hab
  omega

lemma intRange_length (s t : Int) : (intRange s t).length = (t - s).toNat := by
  rw [intRange, List.length_map, List.length_range]

/-! ### Lemmas about the filesystem effects -/

lemma foldl_write_of_notMem (v : Nat) :
    ∀ (ps : List String) (s : FileStore) (q : String), q ∉ ps →
      (ps.foldl (fun s p => writeFile s p v) s) q = s q := by
  intro ps
  induction ps with
  | nil => intro s q _; rfl
  | cons p ps ih =>
    intro s q hq
    rw [List.mem_cons, not_or] at hq
    simp only [List.foldl_cons]
    rw [ih _ q hq.2]
    simp [writeFile, hq.1]

lemma foldl_write_of_mem (v : Nat) :
    ∀ (ps : List String) (s : FileStore) (q : String), q ∈ ps →
      (ps.foldl (fun s p => writeFile s p v) s) q = some v := by
  intro ps
  induction ps with
  | nil => intro s q hq; simp at hq
  | cons p ps ih =>
    intro s q hq
    by_cases hmem : q ∈ ps
    · exact ih _ q hmem
    · have hqp : q = p := by
        rcases List.mem_cons.mp hq with h | h
        · exact h
        · exact absurd h hmem
      subst hqp
      simp only [List.foldl_cons]
      rw [foldl_write_of_notMem v ps _ q hmem]
      simp [writeFile]

lemma append_literal (A : String) (x y z : String)
    (h : x.data ++ y.data = z.data) : A ++ x ++ y = A ++ z := by
  apply String.ext
  simp [String.data_append, List.append_assoc, h]

lemma self_mem_ancestors (d : String) : d ∈ ancestors d := by
  have hne : pathComponents d ≠ [] := by
    unfold pathComponents List.splitOn
    exact List.splitOnP_ne_nil _ d.data
  have hlen : 0 < (pathComponents d).length := List.length_pos.mpr hne
  refine List.mem_map.mpr ⟨(pathComponents d).length - 1, List.mem_range.mpr (by omega), ?_⟩
  rw [Nat.sub_add_cancel hlen, List.take_length]
  show String.mk (['/'].intercalate (d.data.splitOn '/')) = d
  rw [List.intercalate_splitOn d.data '/']

end AbfBatchPlot

namespace AbfBatchPlot

/-- Claim C3: for every prefix string and every integer index in `0..9999`,
`build_filename` returns the prefix, an underscore, the index zero-padded to
exactly 4 digits, and the `.abf` suffix; in particular the two spec examples
`build_filename "2024_02_21" 77 = "2024_02_21_0077.abf"` and
`build_filename "2024_02_21" 7 = "2024_02_21_0007.abf"` hold. -/
theorem build_filename_zero_pads (p : String) (n : Int)
    (h0 : 0 ≤ n) (h1 : n ≤ 9999) :
    (∃ s : List Char, build_filename p n = p ++ "_" ++ String.mk s ++ ".abf" ∧
      s.length = 4 ∧ (∀ c ∈ s, c.isDigit = true) ∧ digitsVal s = n.toNat) ∧
    build_filename "2024_02_21" 77 = "2024_02_21_0077.abf" ∧
    build_filename "2024_02_21" 7 = "2024_02_21_0007.abf" := by
  have hnn : ¬ n < 0 := by omega
  have hlt : n.toNat < 10 ^ 4 := by omega
  refine ⟨⟨format04d n, rfl, ?_, ?_, ?_⟩, by decide, by decide⟩
  · simp only [format04d, if_neg hnn]
    exact length_zpad 4 _ (natRepr_length_le 4 _ (by norm_num) hlt)
  · simp only [format04d, if_neg hnn]
    exact zpad_all_digit 4 _ (natRepr_all_digit _)
  · simp only [format04d, if_neg hnn]
    rw [digitsVal_zpad]
    exact digitsVal_natRepr _

theorem build_filename_zero_pads_witness :
    (∃ s : List Char,
      build_filename "x" 5 = "x" ++ "_" ++ String.mk s ++ ".abf" ∧
      s.length = 4 ∧ (∀ c ∈ s, c.isDigit = true) ∧ digitsVal s = (5 : Int).toNat) ∧
    build_filename "2024_02_21" 77 = "2024_02_21_0077.abf" ∧
    build_filename "2024_02_21" 7 = "2024_02_21_0007.abf" :=
  build_filename_zero_pads "x" 5 (by decide) (by decide)

/-- Claim C10: outside `0..9999`, `build_filename` is still deterministic and
untruncated: for `n ≥ 10000` the full decimal digits of `n` appear unpadded
between the underscore and `.abf`, and for `n < 0` the minus sign is emitted
first and counts toward the 4-character width, so the formatted token has
length `max 4 (1 + digits)`; in particular index `-5` yields
`"{prefix}_-005.abf"`. -/
theorem build_filename_out_of_range (p : String) (n : Int) :
    (10000 ≤ n →
      build_filename p n = p ++ "_" ++ String.mk (natRepr n.toNat) ++ ".abf" ∧
      5 ≤ (natRepr n.toNat).length ∧
      digitsVal (natRepr n.toNat) = n.toNat) ∧
    (n < 0 →
      (format04d n).headI = '-' ∧
      (format04d n).length = max 4 (1 + (natRepr n.natAbs).length)) ∧
    build_filename p (-5) = p ++ "_-005.abf" := by
  refine ⟨?_, ?_, ?_⟩
  · intro hn
    have hnn : ¬ n < 0 := by omega
    have hlen : 4 < (natRepr n.toNat).length := by
      refine lt_length_natRepr 4 n.toNat ⟨?_, ?_⟩ <;> omega
    refine ⟨?_, by omega, digitsVal_natRepr _⟩
    show p ++ "_" ++ String.mk (format04d n) ++ ".abf" = _
    rw [show format04d n = natRepr n.toNat by
      simp only [format04d, if_neg hnn]
      exact zpad_of_le 4 _ (by omega)]
  · intro hn
    simp only [format04d, if_pos hn]
    refine ⟨rfl, ?_⟩
    simp only [List.length_cons, zpad, List.length_append, List.length_replicate]
    omega
  · show p ++ "_" ++ String.mk (format04d (-5)) ++ ".abf" = p ++ "_-005.abf"
    apply String.ext
    simp only [String.data_append, List.append_assoc]
    congr 1

theorem build_filename_out_of_range_witness :
    (build_filename "p" 12345 =
      "p" ++ "_" ++ String.mk (natRepr (12345 : Int).toNat) ++ ".abf" ∧
      5 ≤ (natRepr (12345 : Int).toNat).length) ∧
    (format04d (-7)).headI = '-' ∧
    build_filename "q" (-5) = "q" ++ "_-005.abf" :=
  ⟨⟨((build_filename_out_of_range "p" 12345).1 (by decide)).1,
    ((build_filename_out_of_range "p" 12345).1 (by decide)).2.1⟩,
   ((build_filename_out_of_range "p" (-7)).2.1 (by decide)).1,
   (build_filename_out_of_range "q" (-5)).2.2⟩

/-- Claim C1: for every sample sequence of length `N ≥ 1` and every valid
pair `(fs, fc)` with `0 < fc < fs/2`, `low_pass_filter` succeeds and
returns a filtered sequence whose length equals `N`. -/
theorem low_pass_filter_preserves_length (data : List ℚ) (cutoff_hz fs_hz : ℚ)
    (order : Nat) (h0 : 0 < cutoff_hz) (h1 : cutoff_hz < (1 / 2) * fs_hz)
    (hN : 1 ≤ data.length) :
    ∃ y, low_pass_filter data cutoff_hz fs_hz order = .ok y ∧
      y.length = data.length := by
  refine ⟨filtfilt (butter order (cutoff_hz / ((1 / 2 : ℚ) * fs_hz))).1
      (butter order (cutoff_hz / ((1 / 2 : ℚ) * fs_hz))).2 data,
    ?_, filtfilt_length _ _ data⟩
  simp only [low_pass_filter]
  rw [if_neg (not_le.mpr h1)]

theorem low_pass_filter_preserves_length_witness :
    ∃ y, low_pass_filter [1, 2] 1 4 4 = .ok y ∧
      y.length = ([1, 2] : List ℚ).length :=
  low_pass_filter_preserves_length [1, 2] 1 4 4 (by norm_num) (by norm_num)
    (by decide)

/-- Claim C2: for `fc ≥ fs/2` the filter call fails with a configuration
error whose carried values (and rendered message) name both the requested
cutoff and the computed Nyquist frequency `fs/2`; and in the batch loop an
error on one file only produces that file's `[ERROR]` event — the loop
result on the remaining indices is untouched, so the batch continues with
the next file. -/
theorem nyquist_violation_raises (data : List ℚ) (cutoff_hz fs_hz : ℚ)
    (order : Nat) (h : (1 / 2) * fs_hz ≤ cutoff_hz) :
    (∃ err : ConfigError,
      low_pass_filter data cutoff_hz fs_hz order = .error err ∧
      err.cutoff_hz = cutoff_hz ∧ err.nyquist = (1 / 2) * fs_hz ∧
      err.message = "Cutoff (" ++ toString cutoff_hz ++
        " Hz) must be less than Nyquist (" ++ toString ((1 / 2) * fs_hz) ++
        " Hz).") ∧
    ∀ (fe : String → Bool) (proc : String → Except String Unit)
      (bd pd : String) (n : Int) (ns : List Int) (e : String),
      fe (filePath bd (build_filename pd n)) = true →
      proc (filePath bd (build_filename pd n)) = .error e →
      mainLoop fe proc bd pd (n :: ns) =
        (Event.errorLine (filePath bd (build_filename pd n)) e ::
          (mainLoop fe proc bd pd ns).1,
         (mainLoop fe proc bd pd ns).2) := by
  constructor
  · refine ⟨⟨cutoff_hz, (1 / 2) * fs_hz⟩, ?_, rfl, rfl, rfl⟩
    simp only [low_pass_filter]
    rw [if_pos h]
  · intro fe proc bd pd n ns e hfe hproc
    simp [mainLoop, hfe, hproc]

theorem nyquist_violation_raises_witness :
    (∃ err : ConfigError,
      low_pass_filter [1] 3 4 4 = .error err ∧
      err.cutoff_hz = 3 ∧ err.nyquist = (1 / 2) * 4 ∧
      err.message = "Cutoff (" ++ toString (3 : ℚ) ++
        " Hz) must be less than Nyquist (" ++ toString ((1 / 2 : ℚ) * 4) ++
        " Hz).") ∧
    mainLoop (fun _ => true) (fun _ => .error "bad data") "b" "p" [1, 2] =
      (Event.errorLine (filePath "b" (build_filename "p" 1)) "bad data" ::
        (mainLoop (fun _ => true) (fun _ => .error "bad data") "b" "p" [2]).1,
       (mainLoop (fun _ => true) (fun _ => .error "bad data") "b" "p" [2]).2) :=
  ⟨(nyquist_violation_raises [1] 3 4 4 (by norm_num)).1,
   (nyquist_violation_raises [1] 3 4 4 (by norm_num)).2
     (fun _ => true) (fun _ => .error "bad data") "b" "p" 1 [2] "bad data"
     rfl rfl⟩

/-- Claim C9: `low_pass_filter` raises its configuration error if and only
if `cutoff_hz ≥ fs/2` — only the upper (Nyquist) bound of the stated
precondition is checked, so for any cutoff strictly below the Nyquist
frequency, zero and negative cutoffs included, the configuration-error
branch is not taken and the filter design proceeds to a result. -/
theorem config_error_iff_nyquist (data : List ℚ) (cutoff_hz fs_hz : ℚ)
    (order : Nat) :
    (isConfigError (low_pass_filter data cutoff_hz fs_hz order) = true ↔
      (1 / 2) * fs_hz ≤ cutoff_hz) ∧
    (cutoff_hz < (1 / 2) * fs_hz →
      ∃ y, low_pass_filter data cutoff_hz fs_hz order = .ok y) := by
  constructor
  · by_cases h : (1 / 2) * fs_hz ≤ cutoff_hz
    · simp only [low_pass_filter]
      rw [if_pos h]
      exact iff_of_true rfl h
    · simp only [low_pass_filter]
      rw [if_neg h]
      exact iff_of_false Bool.false_ne_true h
  · intro h
    refine ⟨filtfilt (butter order (cutoff_hz / ((1 / 2 : ℚ) * fs_hz))).1
        (butter order (cutoff_hz / ((1 / 2 : ℚ) * fs_hz))).2 data, ?_⟩
    simp only [low_pass_filter]
    rw [if_neg (not_le.mpr h)]

theorem config_error_iff_nyquist_witness :
    isConfigError (low_pass_filter [1] (-3) 10 4) = false ∧
    (∃ y, low_pass_filter [1] (-3) 10 4 = .ok y) := by
  obtain ⟨y, hy⟩ := (config_error_iff_nyquist [1] (-3) 10 4).2 (by norm_num)
  exact ⟨by rw [hy]; rfl, ⟨y, hy⟩⟩

/-- Claim C4: for `start ≤ end` the batch driver's index list is exactly
the closed interval `[start, end]`, strictly ascending (hence each index
exactly once); the loop produces one event for exactly the indices whose
resolved file exists and collects exactly the others' paths as missing. -/
theorem batch_visits_and_partitions (fe : String → Bool)
    (proc : String → Except String Unit) (bd pd : String)
    (start endIdx : Int) (hse : start ≤ endIdx) :
    (∀ m : Int, m ∈ intRange start (endIdx + 1) ↔ start ≤ m ∧ m ≤ endIdx) ∧
    (intRange start (endIdx + 1)).Pairwise (· < ·) ∧
    (mainLoop fe proc bd pd (intRange start (endIdx + 1))).1.map eventPath =
      ((intRange start (endIdx + 1)).map fun n =>
        filePath bd (build_filename pd n)).filter fe ∧
    (mainLoop fe proc bd pd (intRange start (endIdx + 1))).2 =
      ((intRange start (endIdx + 1)).map fun n =>
        filePath bd (build_filename pd n)).filter (fun p => ! fe p) := by
  refine ⟨?_, intRange_pairwise _ _, ?_, ?_⟩
  · intro m
    rw [mem_intRange]
    omega
  · rw [mainLoop_eq, List.map_map, eventPath_comp_eventOf, List.map_id]
  · rw [mainLoop_eq]

theorem batch_visits_and_partitions_witness :
    (77 : Int) ≤ 84 ∧
    (mainLoop
        (fun p => p == "base/2024_02_21_0077.abf" ||
          p == "base/2024_02_21_0080.abf" || p == "base/2024_02_21_0082.abf")
        (fun _ => .ok ()) "base" "2024_02_21" (intRange 77 (84 + 1))).2 =
      ((intRange 77 (84 + 1)).map fun n =>
        filePath "base" (build_filename "2024_02_21" n)).filter
          (fun p => ! (p == "base/2024_02_21_0077.abf" ||
            p == "base/2024_02_21_0080.abf" ||
            p == "base/2024_02_21_0082.abf")) ∧
    (mainLoop
        (fun p => p == "base/2024_02_21_0077.abf" ||
          p == "base/2024_02_21_0080.abf" || p == "base/2024_02_21_0082.abf")
        (fun _ => .ok ()) "base" "2024_02_21" (intRange 77 (84 + 1))).2 =
      ["base/2024_02_21_0078.abf", "base/2024_02_21_0079.abf",
       "base/2024_02_21_0081.abf", "base/2024_02_21_0083.abf",
       "base/2024_02_21_0084.abf"] ∧
    (mainLoop
        (fun p => p == "base/2024_02_21_0077.abf" ||
          p == "base/2024_02_21_0080.abf" || p == "base/2024_02_21_0082.abf")
        (fun _ => .ok ()) "base" "2024_02_21" (intRange 77 (84 + 1))).1.map
        eventPath =
      ["base/2024_02_21_0077.abf", "base/2024_02_21_0080.abf",
       "base/2024_02_21_0082.abf"] :=
  ⟨by decide,
   (batch_visits_and_partitions
     (fun p => p == "base/2024_02_21_0077.abf" ||
       p == "base/2024_02_21_0080.abf" || p == "base/2024_02_21_0082.abf")
     (fun _ => .ok ()) "base" "2024_02_21" 77 84 (by decide)).2.2.2,
   by decide, by decide⟩

/-- Claim C5: a missing input file never raises and never terminates the
batch early — the loop's result partitions all indices (events plus
missing counts add up), the missing list holds exactly the full resolved
path of every absent file, and the warning block listing them comes after
all per-file console lines, produced only once the loop over every index
has finished. -/
theorem missing_files_nonfatal (fe : String → Bool)
    (proc : String → Except String Unit) (bd pd : String)
    (start endIdx : Int) :
    (main fe proc bd pd start endIdx).missing =
      ((intRange start (endIdx + 1)).map fun n =>
        filePath bd (build_filename pd n)).filter (fun p => ! fe p) ∧
    (main fe proc bd pd start endIdx).consoleOutput =
      (main fe proc bd pd start endIdx).events.map renderEvent ++
        (main fe proc bd pd start endIdx).warningLines ∧
    (main fe proc bd pd start endIdx).warningLines =
      (if (main fe proc bd pd start endIdx).missing.isEmpty then [] else
        "[WARNING] Missing files:" ::
          (main fe proc bd pd start endIdx).missing.map (fun m => " - " ++ m)) ∧
    (main fe proc bd pd start endIdx).events.length +
        (main fe proc bd pd start endIdx).missing.length =
      (intRange start (endIdx + 1)).length := by
  refine ⟨?_, rfl, rfl, ?_⟩
  · show (mainLoop fe proc bd pd (intRange start (endIdx + 1))).2 = _
    rw [mainLoop_eq]
  · show (mainLoop fe proc bd pd (intRange start (endIdx + 1))).1.length +
        (mainLoop fe proc bd pd (intRange start (endIdx + 1))).2.length =
      (intRange start (endIdx + 1)).length
    rw [mainLoop_eq]
    simp only [List.length_map]
    rw [← List.length_eq_length_filter_add]
    rw [List.length_map]

/-- Claim C6: an error raised while processing one file is caught at the
per-file boundary: the loop records a single `[ERROR]` event carrying the
exception message, that event goes to the error stream, and the loop's
result on the remaining indices is exactly the loop run on them — every
remaining index is still visited, so no per-file error terminates the
batch. -/
theorem per_file_errors_contained (fe : String → Bool)
    (proc : String → Except String Unit) (bd pd : String)
    (n : Int) (ns : List Int) (msg : String)
    (hfe : fe (filePath bd (build_filename pd n)) = true)
    (hproc : proc (filePath bd (build_filename pd n)) = .error msg) :
    mainLoop fe proc bd pd (n :: ns) =
      (Event.errorLine (filePath bd (build_filename pd n)) msg ::
        (mainLoop fe proc bd pd ns).1,
       (mainLoop fe proc bd pd ns).2) ∧
    eventChan (Event.errorLine (filePath bd (build_filename pd n)) msg) =
      Chan.stderr ∧
    renderEvent (Event.errorLine (filePath bd (build_filename pd n)) msg) =
      "[ERROR] " ++ filePath bd (build_filename pd n) ++ ": " ++ msg ∧
    (mainLoop fe proc bd pd ns).1.length +
        (mainLoop fe proc bd pd ns).2.length = ns.length := by
  refine ⟨?_, rfl, rfl, ?_⟩
  · simp [mainLoop, hfe, hproc]
  · rw [mainLoop_eq]
    simp only [List.length_map]
    rw [← List.length_eq_length_filter_add]
    rw [List.length_map]

theorem per_file_errors_contained_witness :
    mainLoop (fun _ => true) (fun _ => .error "boom") "b" "p" [2, 3] =
      (Event.errorLine (filePath "b" (build_filename "p" 2)) "boom" ::
        (mainLoop (fun _ => true) (fun _ => .error "boom") "b" "p" [3]).1,
       (mainLoop (fun _ => true) (fun _ => .error "boom") "b" "p" [3]).2) ∧
    eventChan (Event.errorLine (filePath "b" (build_filename "p" 2)) "boom") =
      Chan.stderr ∧
    renderEvent (Event.errorLine (filePath "b" (build_filename "p" 2)) "boom") =
      "[ERROR] " ++ filePath "b" (build_filename "p" 2) ++ ": " ++ "boom" ∧
    (mainLoop (fun _ => true) (fun _ => .error "boom") "b" "p" [3]).1.length +
        (mainLoop (fun _ => true) (fun _ => .error "boom") "b" "p" [3]).2.length =
      ([3] : List Int).length :=
  per_file_errors_contained (fun _ => true) (fun _ => .error "boom") "b" "p"
    2 [3] "boom" rfl rfl

/-- Claim C7: every batch run finishes with a successful exit status —
`main` never calls `sys.exit` and contains every per-file raise in its
`try`/`except`, so whatever files exist and whatever each
`plot_one_abf` call does, the run's exit code is 0. -/
theorem exit_status_always_zero (fe : String → Bool)
    (proc : String → Except String Unit) (bd pd : String)
    (start endIdx : Int) :
    (main fe proc bd pd start endIdx).exitCode = 0 := rfl

/-- Claim C8: a successfully processed input yields exactly two written
files, `{stem}.filtered.png` and `{stem}.filtered.pdf` inside the output
directory; writing overwrites whatever was at those paths before and
touches no other path, and the `mkdir(parents=True, exist_ok=True)` call
creates the output directory and all its ancestors while keeping every
pre-existing directory. -/
theorem plot_one_abf_outputs (abf_path outdir : String) (store : FileStore)
    (dirs : String → Bool) (v : Nat) :
    outputFiles abf_path outdir =
      [outdir ++ "/" ++ stem abf_path ++ ".filtered.png",
       outdir ++ "/" ++ stem abf_path ++ ".filtered.pdf"] ∧
    (outputFiles abf_path outdir).length = 2 ∧
    (∀ q ∈ outputFiles abf_path outdir,
      plotOneSave store abf_path outdir v q = some v) ∧
    (∀ q, q ∉ outputFiles abf_path outdir →
      plotOneSave store abf_path outdir v q = store q) ∧
    outdir ∈ ancestors outdir ∧
    (∀ d ∈ ancestors outdir, mkdirParents dirs outdir d = true) ∧
    (∀ q, dirs q = true → mkdirParents dirs outdir q = true) := by
  refine ⟨?_, rfl, ?_, ?_, self_mem_ancestors outdir, ?_, ?_⟩
  · simp only [outputFiles, List.map_cons, List.map_nil]
    rw [append_literal _ ".filtered." "png" ".filtered.png" (by decide),
      append_literal _ ".filtered." "pdf" ".filtered.pdf" (by decide)]
  · intro q hq
    exact foldl_write_of_mem v _ store q hq
  · intro q hq
    exact foldl_write_of_notMem v _ store q hq
  · intro d hd
    simp [mkdirParents, List.contains_iff_exists_mem_beq]
    exact Or.inr hd
  · intro q hq
    simp [mkdirParents, hq]

theorem plot_one_abf_outputs_witness :
    ("outputs/2024_02_21_0077.filtered.png" ∈
      outputFiles "base/2024_02_21_0077.abf" "outputs") ∧
    plotOneSave (fun _ => some 0) "base/2024_02_21_0077.abf" "outputs" 1
      "outputs/2024_02_21_0077.filtered.png" = some 1 ∧
    plotOneSave (fun _ => some 0) "base/2024_02_21_0077.abf" "outputs" 1
      "base/2024_02_21_0077.abf" = some 0 ∧
    mkdirParents (fun _ => false) "outputs" "outputs" = true :=
  ⟨by decide,
   (plot_one_abf_outputs "base/2024_02_21_0077.abf" "outputs"
     (fun _ => some 0) (fun _ => false) 1).2.2.1 _ (by decide),
   (plot_one_abf_outputs "base/2024_02_21_0077.abf" "outputs"
     (fun _ => some 0) (fun _ => false) 1).2.2.2.1 _ (by decide),
   (plot_one_abf_outputs "base/2024_02_21_0077.abf" "outputs"
     (fun _ => some 0) (fun _ => false) 1).2.2.2.2.2.1 _ (by decide)⟩

end AbfBatchPlot
